import Mathlib

/-!
# GoUp request-dispatch and middleware pipeline: a shallow embedding

This file embeds, in Lean, the request-dispatch and middleware/plugin
pipeline of the GoUp multi-site HTTP server and proves the specified
properties about it.  Each definition is translated from the Go source:

* `internal/server/server.go`  — virtual-host dispatcher (`startVirtualHostServer`);
* `internal/server/handler.go` — per-site handler construction and the
  shared reverse-proxy pool (`createHandler`, `getSharedReverseProxy`);
* `internal/server/middleware/concurrency.go`   — admission control;
* `internal/server/middleware/async_logger.go`  — pooled async logging;
* the gzip middleware (`GzipMiddleware` / `smartGzipWriter`);
* `createHTTPServer` (server timeout wiring);
* `internal/server/static_handler.go` — pre-compressed sidecar negotiation.

Machine integers (Go `int`) are modelled as `Int` (or `Nat` where the
source guarantees non-negativity), Go maps/channels/pools as explicit
lists, and the handful of standard-library collaborators (`url.Parse`,
`mime.TypeByExtension`, `http.DetectContentType`, the gzip codec) as
explicit function parameters, since they are outside the repository.
-/

namespace GoUp

/-- Predicate `listStartsWith sub s` holds when `sub` is an initial segment of `s`. -/
def listStartsWith : List Char → List Char → Bool
  | [], _ => true
  | _ :: _, [] => false
  | a :: as, b :: bs => a = b && listStartsWith as bs

/-- Predicate `hasSubList s sub` holds when `sub` occurs contiguously inside `s`. -/
def hasSubList : List Char → List Char → Bool
  | [], sub => decide (sub = [])
  | c :: rest, sub => listStartsWith sub (c :: rest) || hasSubList rest sub

/-- Go `strings.Contains s sub`. -/
def containsSubstr (s sub : String) : Bool :=
  hasSubList s.toList sub.toList

/-- Go `strings.Index s c` followed by the slice `s[:idx]` when the
character occurs, the whole string otherwise (used by the dispatcher to
strip a `:port` suffix and by the gzip middleware to strip `;` content
type parameters). -/
def cutAtChar (s : String) (c : Char) : String :=
  match s.toList.findIdx? (fun x => x = c) with
  | some i => ⟨s.toList.take i⟩
  | none => s

/-- The fields of `config.SiteConfig` (internal/config/config.go) that the
dispatch pipeline reads. -/
structure SiteConfig where
  domain : String
  port : Int
  rootDirectory : String := ""
  proxyPass : String := ""
  flushInterval : String := ""
  bufferSizeKB : Int := 0
  maxConcurrentConnections : Int := 0
  requestTimeout : Int := 0
  enableLogging : Option Bool := none
  fileServerMode : Bool := false
  deriving DecidableEq, Repr

/-! ## C1 — virtual-host dispatcher (`startVirtualHostServer`, server.go) -/

/-- Result of the per-port dispatcher for one request. -/
inductive DispatchResult (α : Type) where
  | handled (h : α)
  | notFound
  deriving DecidableEq, Repr

/-- Go `host = host[:colonIndex]` when the Host header has a colon
(server.go lines 203–205). -/
def stripHostPort (host : String) : String :=
  cutAtChar host ':'

/-- The `radixTree.Insert` call specialised to exact string keys: replaces the
value at an existing key, otherwise appends a new leaf. -/
def radixInsert {α : Type} (t : List (String × α)) (k : String) (v : α) :
    List (String × α) :=
  match t with
  | [] => [(k, v)]
  | (k', v') :: rest =>
    if k' = k then (k, v) :: rest else (k', v') :: radixInsert rest k v

/-- The `radixTree.Get` call: exact-match lookup. -/
def radixGet {α : Type} (t : List (String × α)) (k : String) : Option α :=
  match t with
  | [] => none
  | (k', v) :: rest => if k' = k then some v else radixGet rest k

/-- The loop in `startVirtualHostServer` that inserts each site's composed
handler keyed by its domain.  The handler built for a configuration is
identified with the configuration itself. -/
def buildVhostTree (configs : List SiteConfig) : List (String × SiteConfig) :=
  configs.foldl (fun t conf => radixInsert t conf.domain conf) []

/-- The `mainHandler` closure of `startVirtualHostServer` (server.go lines 202–212):
strip any `:port` suffix from the Host header, look the result up in the
radix tree; serve the matching site's handler, else `http.NotFound`. -/
def vhostDispatch (configs : List SiteConfig) (host : String) :
    DispatchResult SiteConfig :=
  match radixGet (buildVhostTree configs) (stripHostPort host) with
  | some h => DispatchResult.handled h
  | none => DispatchResult.notFound

theorem radixGet_radixInsert {α : Type} (t : List (String × α)) (k k' : String) (v : α) :
    radixGet (radixInsert t k v) k' = if k = k' then some v else radixGet t k' := by
  induction t with
  | nil => simp [radixInsert, radixGet]
  | cons p rest ih =>
    obtain ⟨k₀, v₀⟩ := p
    by_cases h0 : k₀ = k
    · subst h0
      by_cases h : k₀ = k' <;> simp [radixInsert, radixGet, h]
    · by_cases h1 : k₀ = k'
      · subst h1
        have hk : ¬ k = k₀ := fun hh => h0 hh.symm
        simp [radixInsert, h0, radixGet, hk]
      · simp [radixInsert, h0, radixGet, h1, ih]

theorem radixGet_mem {α : Type} (t : List (String × α)) (k : String) (v : α)
    (h : radixGet t k = some v) : (k, v) ∈ t := by
  induction t with
  | nil => simp [radixGet] at h
  | cons p rest ih =>
    obtain ⟨k₀, v₀⟩ := p
    by_cases hk : k₀ = k
    · subst hk
      simp [radixGet] at h
      simp [h]
    · simp [radixGet, hk] at h
      exact List.mem_cons_of_mem _ (ih h)

theorem radixInsert_entry_cases {α : Type} (t : List (String × α)) (k : String)
    (v : α) (e : String × α) (h : e ∈ radixInsert t k v) :
    e ∈ t ∨ e = (k, v) := by
  induction t with
  | nil => simp [radixInsert] at h; simp [h]
  | cons p rest ih =>
    obtain ⟨k₀, v₀⟩ := p
    by_cases hk : k₀ = k
    · subst hk
      simp [radixInsert] at h
      rcases h with h | h
      · right; simp [h]
      · left; exact List.mem_cons_of_mem _ h
    · simp [radixInsert, hk] at h
      rcases h with h | h
      · left; simp [h]
      · rcases ih h with h' | h'
        · left; exact List.mem_cons_of_mem _ h'
        · right; exact h'

theorem foldl_radixInsert_entry (cs : List SiteConfig)
    (t : List (String × SiteConfig)) (e : String × SiteConfig)
    (h : e ∈ cs.foldl (fun t conf => radixInsert t conf.domain conf) t) :
    e ∈ t ∨ (e.2 ∈ cs ∧ e.2.domain = e.1) := by
  induction cs generalizing t with
  | nil => simp only [List.foldl_nil] at h; exact Or.inl h
  | cons c cs ih =>
    simp only [List.foldl_cons] at h
    rcases ih (radixInsert t c.domain c) h with h' | h'
    · rcases radixInsert_entry_cases t c.domain c e h' with h'' | h''
      · exact Or.inl h''
      · subst h''; exact Or.inr ⟨List.mem_cons_self _ _, rfl⟩
    · exact Or.inr ⟨List.mem_cons_of_mem _ h'.1, h'.2⟩

/-- Every entry of the tree built by the insertion loop keys a
configuration from the list by its own domain. -/
theorem buildVhostTree_entry (configs : List SiteConfig) (e : String × SiteConfig)
    (h : e ∈ buildVhostTree configs) : e.2 ∈ configs ∧ e.2.domain = e.1 := by
  rcases foldl_radixInsert_entry configs [] e h with h' | h'
  · simp at h'
  · exact h'

theorem foldl_radixInsert_get_none (cs : List SiteConfig)
    (t : List (String × SiteConfig)) (k : String)
    (h : radixGet (cs.foldl (fun t conf => radixInsert t conf.domain conf) t) k = none) :
    radixGet t k = none ∧ ∀ c ∈ cs, c.domain ≠ k := by
  induction cs generalizing t with
  | nil => simp only [List.foldl_nil] at h; exact ⟨h, by simp⟩
  | cons c cs ih =>
    simp only [List.foldl_cons] at h
    obtain ⟨h1, h2⟩ := ih (radixInsert t c.domain c) h
    rw [radixGet_radixInsert] at h1
    by_cases hd : c.domain = k
    · simp [hd] at h1
    · refine ⟨by simpa [hd] using h1, ?_⟩
      intro c' hc'
      rcases List.mem_cons.mp hc' with rfl | hc'
      · exact hd
      · exact h2 c' hc'

theorem buildVhostTree_get_none_iff (configs : List SiteConfig) (k : String) :
    radixGet (buildVhostTree configs) k = none ↔
      ∀ conf ∈ configs, conf.domain ≠ k := by
  constructor
  · intro h
    exact (foldl_radixInsert_get_none configs [] k h).2
  · intro h
    cases hget : radixGet (buildVhostTree configs) k with
    | none => rfl
    | some v =>
      have hmem := radixGet_mem _ _ _ hget
      have := buildVhostTree_entry configs (k, v) hmem
      exact absurd this.2 (h v this.1)

/-- C1 (amended): `startVirtualHostServer`'s dispatcher strips any `:port`
suffix from the Host header and looks the result up among the port's
configured domains; an exact domain match is served by that site's
composed handler; an unmatched host receives the `http.NotFound` (404)
response — not the first configured site's handler. -/
theorem goup_c1_vhost_dispatch (configs : List SiteConfig) (host : String) :
    (∀ conf, vhostDispatch configs host = DispatchResult.handled conf →
        conf ∈ configs ∧ conf.domain = stripHostPort host) ∧
    ((∃ conf ∈ configs, conf.domain = stripHostPort host) →
        ∃ conf, vhostDispatch configs host = DispatchResult.handled conf ∧
          conf ∈ configs ∧ conf.domain = stripHostPort host) ∧
    ((∀ conf ∈ configs, conf.domain ≠ stripHostPort host) →
        vhostDispatch configs host = DispatchResult.notFound) := by
  refine ⟨?_, ?_, ?_⟩
  · intro conf h
    unfold vhostDispatch at h
    cases hget : radixGet (buildVhostTree configs) (stripHostPort host) with
    | none => rw [hget] at h; exact absurd h (by simp)
    | some v =>
      rw [hget] at h
      have hv : v = conf := by
        cases h; rfl
      subst hv
      have hmem := radixGet_mem _ _ _ hget
      exact buildVhostTree_entry configs _ hmem
  · intro hex
    unfold vhostDispatch
    cases hget : radixGet (buildVhostTree configs) (stripHostPort host) with
    | none =>
      obtain ⟨conf, hconf, hdom⟩ := hex
      have := (buildVhostTree_get_none_iff configs (stripHostPort host)).1 hget
      exact absurd hdom (this conf hconf)
    | some v =>
      have hmem := radixGet_mem _ _ _ hget
      have hv := buildVhostTree_entry configs _ hmem
      exact ⟨v, rfl, hv.1, hv.2⟩
  · intro hall
    unfold vhostDispatch
    rw [(buildVhostTree_get_none_iff configs (stripHostPort host)).2 hall]

/-- Witness for `goup_c1_vhost_dispatch` at a concrete two-site port:
`b.com:8080` routes to the `b.com` site, `c.com:8080` (unmatched) gets
the 404 response. -/
theorem goup_c1_vhost_dispatch_witness :
    (∃ conf, vhostDispatch
        [{ domain := "a.com", port := 8080 }, { domain := "b.com", port := 8080 }]
        "b.com:8080" = DispatchResult.handled conf ∧
      conf ∈ [({ domain := "a.com", port := 8080 } : SiteConfig),
              { domain := "b.com", port := 8080 }] ∧
      conf.domain = stripHostPort "b.com:8080") ∧
    vhostDispatch
        [{ domain := "a.com", port := 8080 }, { domain := "b.com", port := 8080 }]
        "c.com:8080" = DispatchResult.notFound :=
  ⟨(goup_c1_vhost_dispatch _ _).2.1 (by decide),
   (goup_c1_vhost_dispatch _ _).2.2 (by decide)⟩

/-- Counterexample to C1 as stated: on a multi-site port, an unmatched
Host header is answered with `http.NotFound`, not by the first configured
site's handler. -/
theorem goup_c1_counterexample :
    vhostDispatch
        [{ domain := "a.com", port := 8080 }, { domain := "b.com", port := 8080 }]
        "c.com:8080" = DispatchResult.notFound ∧
    vhostDispatch
        [{ domain := "a.com", port := 8080 }, { domain := "b.com", port := 8080 }]
        "c.com:8080" ≠ DispatchResult.handled { domain := "a.com", port := 8080 } := by
  decide

/-! ## C3 — admission control (`ConcurrencyMiddleware`, concurrency.go)

The middleware allocates `sem := make(chan struct{}, maxConcurrent)` once,
then for every request does a non-blocking `select`: on `sem <- struct{}{}`
the inner handler runs with `defer func() { <-sem }()` (release on every
exit path, panics included), on `default` it answers 503 without invoking
the inner handler.  The semaphore is modelled by the number of tokens held
(`inflight`); a request's life is an `arrive` event (acquire attempt plus
inner-handler entry) and, for admitted requests, a later `depart` event
(the deferred release when the inner handler finishes, normally or by
panic). -/

/-- How the inner handler finished (the `defer` fires in either case). -/
inductive Outcome where
  | ok
  | panicked
  deriving DecidableEq, Repr

/-- What the middleware does with one request. -/
inductive ConcResp where
  | executed (oc : Outcome)
  | unavailable503
  deriving DecidableEq, Repr

inductive CEvent where
  | arrive (oc : Outcome)
  | depart
  deriving DecidableEq, Repr

/-- One step of `ConcurrencyMiddleware`'s semaphore: `arrive` is the
non-blocking acquire (`select` with `default`), `depart` is the deferred
release. -/
def concStep (maxConcurrent inflight : Nat) : CEvent → Option ConcResp × Nat
  | CEvent.arrive oc =>
    if inflight < maxConcurrent then (some (ConcResp.executed oc), inflight + 1)
    else (some ConcResp.unavailable503, inflight)
  | CEvent.depart => (none, inflight - 1)

/-- All semaphore states reached while processing an event sequence. -/
def concStates (maxConcurrent inflight : Nat) : List CEvent → List Nat
  | [] => [inflight]
  | e :: evs =>
    inflight :: concStates maxConcurrent (concStep maxConcurrent inflight e).2 evs

theorem concStep_le (maxC s : Nat) (e : CEvent) (h : s ≤ maxC) :
    (concStep maxC s e).2 ≤ maxC := by
  cases e with
  | arrive oc =>
    by_cases hs : s < maxC
    · simp only [concStep, hs, if_true]
      omega
    · simpa [concStep, hs] using h
  | depart => exact le_trans (Nat.sub_le s 1) h

theorem concStates_le (maxC : Nat) (evs : List CEvent) (s : Nat) (h : s ≤ maxC) :
    ∀ x ∈ concStates maxC s evs, x ≤ maxC := by
  induction evs generalizing s with
  | nil =>
    intro x hx
    simp only [concStates, List.mem_singleton] at hx
    subst hx; exact h
  | cons e evs ih =>
    intro x hx
    simp only [concStates, List.mem_cons] at hx
    rcases hx with rfl | hx
    · exact h
    · exact ih _ (concStep_le maxC s e h) x hx

/-- C3: with `max_concurrent_connections = N > 0` the semaphore holds at
most `N` tokens along any event sequence (at most `N` requests are inside
the inner handler); an arrival at capacity is answered 503 without the
inner handler and without consuming a token; an arrival below capacity
runs the inner handler; the deferred release fires for both normal and
panicking inner handlers, and after a release an arrival is admitted
again. -/
theorem goup_c3_admission_control (maxC : Nat) (evs : List CEvent)
    (s : Nat) (oc : Outcome) (hmax : 0 < maxC) (hs : s ≤ maxC) :
    (∀ x ∈ concStates maxC s evs, x ≤ maxC) ∧
    (s = maxC →
      concStep maxC s (CEvent.arrive oc) = (some ConcResp.unavailable503, s)) ∧
    (s < maxC →
      concStep maxC s (CEvent.arrive oc) = (some (ConcResp.executed oc), s + 1)) ∧
    (s < maxC →
      (concStep maxC (concStep maxC s (CEvent.arrive oc)).2 CEvent.depart).2 = s) ∧
    (s = maxC →
      (concStep maxC (concStep maxC s CEvent.depart).2 (CEvent.arrive oc)).1 =
        some (ConcResp.executed oc)) := by
  refine ⟨concStates_le maxC evs s hs, ?_, ?_, ?_, ?_⟩
  · intro hfull
    simp [concStep, hfull]
  · intro hlt
    simp [concStep, hlt]
  · intro hlt
    simp [concStep, hlt]
  · intro hfull
    subst hfull
    have h1 : s - 1 < s := Nat.sub_lt hmax Nat.one_pos
    simp [concStep, h1, Nat.sub_add_cancel hmax]

/-- Witness for `goup_c3_admission_control` with capacity 2, one slot
taken, a panicking inner handler, over a concrete event sequence. -/
theorem goup_c3_admission_control_witness :
    (∀ x ∈ concStates 2 1
        [CEvent.arrive Outcome.panicked, CEvent.arrive Outcome.ok,
         CEvent.depart, CEvent.arrive Outcome.ok], x ≤ 2) ∧
    (1 < 2 →
      concStep 2 1 (CEvent.arrive Outcome.panicked) =
        (some (ConcResp.executed Outcome.panicked), 2)) := by
  have h := goup_c3_admission_control 2
      [CEvent.arrive Outcome.panicked, CEvent.arrive Outcome.ok,
       CEvent.depart, CEvent.arrive Outcome.ok]
      1 Outcome.panicked (by decide) (by decide)
  exact ⟨h.1, fun _ => h.2.2.1 (by decide)⟩

/-! ## C6 — pooled async logger (`AsyncLogger`, async_logger.go)

`Log` does a non-blocking `select` send on the bounded `logChan`; on
`default` (channel full) the entry is dropped via `PutEntry`, which nils
the `Logger`, empties `Message` and `Identifier`, deletes every key of the
`Fields` map and returns the record to the `sync.Pool`.  The channel is a
bounded queue, the pool a list; the logger reference is an abstract id. -/

structure LogEntry where
  logger : Option Nat := none
  fields : List (String × String) := []
  message : String := ""
  identifier : String := ""
  deriving DecidableEq, Repr

structure AsyncLoggerState where
  cap : Nat
  logChan : List LogEntry := []
  pool : List LogEntry := []
  deriving DecidableEq, Repr

/-- The field-clearing in `PutEntry` (lines 64–69): nil logger, empty
message and identifier, all map keys deleted. -/
def resetEntry (e : LogEntry) : LogEntry :=
  { e with logger := none, message := "", identifier := "", fields := [] }

/-- Go `AsyncLogger.PutEntry`: reset, then return to the pool. -/
def putEntry (s : AsyncLoggerState) (e : LogEntry) : AsyncLoggerState :=
  { s with pool := resetEntry e :: s.pool }

/-- Go `AsyncLogger.Log`: enqueue when the bounded channel has room,
otherwise drop the entry straight back to the pool. -/
def logEntry (s : AsyncLoggerState) (e : LogEntry) : AsyncLoggerState :=
  if s.logChan.length < s.cap then { s with logChan := s.logChan ++ [e] }
  else putEntry s e

/-- A pooled record carries nothing from its previous use. -/
def EntryReset (e : LogEntry) : Prop :=
  e.logger = none ∧ e.message = "" ∧ e.identifier = "" ∧ e.fields = []

/-- C6: `Log` never blocks — it either enqueues (exactly when the bounded
channel has free capacity, leaving the pool alone) or drops the entry,
returning it to the pool fully reset (logger nil, message and identifier
empty, field map emptied); every entry the call adds to the pool is the
reset one, so a pool of reset entries stays reset and no field can leak
into a later record. -/
theorem goup_c6_async_logger (s : AsyncLoggerState) (e : LogEntry) :
    (s.logChan.length < s.cap →
        logEntry s e = { s with logChan := s.logChan ++ [e] }) ∧
    (¬ s.logChan.length < s.cap →
        logEntry s e = { s with pool := resetEntry e :: s.pool } ∧
        (logEntry s e).logChan = s.logChan) ∧
    EntryReset (resetEntry e) ∧
    (∀ x ∈ (logEntry s e).pool, x ∈ s.pool ∨ x = resetEntry e) ∧
    ((∀ x ∈ s.pool, EntryReset x) → ∀ x ∈ (logEntry s e).pool, EntryReset x) := by
  refine ⟨?_, ?_, ?_, ?_, ?_⟩
  · intro h; simp [logEntry, h]
  · intro h; simp [logEntry, h, putEntry]
  · simp [resetEntry, EntryReset]
  · intro x hx
    by_cases h : s.logChan.length < s.cap
    · simp [logEntry, h] at hx
      exact Or.inl hx
    · simp [logEntry, h, putEntry] at hx
      rcases hx with hx | hx
      · exact Or.inr hx
      · exact Or.inl hx
  · intro hpool x hx
    rcases (by
        by_cases h : s.logChan.length < s.cap
        · simp [logEntry, h] at hx
          exact Or.inl hx
        · simp [logEntry, h, putEntry] at hx
          rcases hx with hx | hx
          · exact Or.inr hx
          · exact Or.inl hx :
        x ∈ s.pool ∨ x = resetEntry e) with h | h
    · exact hpool x h
    · subst h; simp [resetEntry, EntryReset]

/-- Witness for `goup_c6_async_logger`: a populated entry dropped on a
full channel comes back to the pool fully reset. -/
theorem goup_c6_async_logger_witness :
    (logEntry { cap := 1, logChan := [{ message := "queued" }], pool := [] }
        { logger := some 7, fields := [("method", "GET")], message := "Handled request",
          identifier := "port_8080" } =
      { cap := 1, logChan := [{ message := "queued" }],
        pool := [{ logger := none, fields := [], message := "", identifier := "" }] }) ∧
    EntryReset (resetEntry
      { logger := some 7, fields := [("method", "GET")], message := "Handled request",
        identifier := "port_8080" }) := by
  have h := goup_c6_async_logger
      { cap := 1, logChan := [{ message := "queued" }], pool := [] }
      { logger := some 7, fields := [("method", "GET")], message := "Handled request",
        identifier := "port_8080" }
  refine ⟨?_, h.2.2.1⟩
  have h2 := (h.2.1 (by decide)).1
  simpa [resetEntry] using h2

/-! ## C2 — plugin pipeline (`plugin.PluginMiddleware`)

Only the call sites of `plugin.PluginMiddleware` and the `PluginManager`
are in the repository sources; the middleware body itself is not. -/

/-- One observable step of the plugin middleware around a request.
Plugins are numbered by registration order; `inner` is the underlying
site handler. -/
inductive PEvent where
  | before (i : Nat)
  | handle (i : Nat)
  | inner
  | after (i : Nat)
  deriving DecidableEq, Repr

/-- Modelled from the spec: the `HandleRequest` phase of
`plugin.PluginMiddleware` (whose body is not among the sources; only its
use sites in server.go are).  Per the spec it calls `HandleRequest` for
each active plugin "until one returns true or all return false", then
runs "either the true-returning short-circuit or the real inner handler".
`k` is the index of the first plugin of `ps`; a plugin is its
`HandleRequest` return value. -/
def handlePhase : Nat → List Bool → List PEvent
  | _, [] => [PEvent.inner]
  | k, p :: rest => PEvent.handle k :: (if p then [] else handlePhase (k + 1) rest)

/-- Modelled from the spec: the full per-request plugin lifecycle of
`plugin.PluginMiddleware` — `BeforeRequest` for all active plugins in
registration order, the `HandleRequest` phase, then `AfterRequest` for
all active plugins "even if `HandleRequest` short-circuited". -/
def pluginPipeline (ps : List Bool) : List PEvent :=
  ((List.range ps.length).map PEvent.before) ++ handlePhase 0 ps ++
    ((List.range ps.length).map PEvent.after)

theorem handlePhase_first_true (ps : List Bool) (k i : Nat)
    (hi : ps[i]? = some true) (hbefore : ∀ j < i, ps[j]? = some false) :
    PEvent.inner ∉ handlePhase k ps ∧
      ∀ j, PEvent.handle j ∈ handlePhase k ps → j ≤ k + i := by
  induction ps generalizing k i with
  | nil => simp at hi
  | cons p rest ih =>
    cases i with
    | zero =>
      have hp : p = true := by simpa using hi
      subst hp
      refine ⟨by simp [handlePhase], ?_⟩
      intro j hj
      simp [handlePhase] at hj
      omega
    | succ i' =>
      have hp : p = false := by
        have := hbefore 0 (Nat.succ_pos _)
        simpa using this
      subst hp
      have hi' : rest[i']? = some true := by simpa using hi
      have hb' : ∀ j < i', rest[j]? = some false := by
        intro j hj
        have := hbefore (j + 1) (by omega)
        simpa using this
      obtain ⟨h1, h2⟩ := ih k.succ i' hi' hb'
      refine ⟨?_, ?_⟩
      · simp only [handlePhase, if_neg Bool.false_ne_true, List.mem_cons]
        rintro (h | h)
        · exact absurd h (by simp)
        · exact h1 h
      · intro j hj
        simp only [handlePhase, if_neg Bool.false_ne_true, List.mem_cons] at hj
        rcases hj with hj | hj
        · cases hj; omega
        · have := h2 j hj
          omega

theorem handlePhase_all_false (ps : List Bool) (k : Nat)
    (hall : ∀ j < ps.length, ps[j]? = some false) :
    PEvent.inner ∈ handlePhase k ps := by
  induction ps generalizing k with
  | nil => simp [handlePhase]
  | cons p rest ih =>
    have hp : p = false := by
      have := hall 0 (by simp)
      simpa using this
    subst hp
    have hall' : ∀ j < rest.length, rest[j]? = some false := by
      intro j hj
      have := hall (j + 1) (by simpa using Nat.succ_lt_succ hj)
      simpa using this
    simp only [handlePhase, if_neg Bool.false_ne_true, List.mem_cons]
    exact Or.inr (ih k.succ hall')

theorem after_mem_pluginPipeline (ps : List Bool) (j : Nat) (hj : j < ps.length) :
    PEvent.after j ∈ pluginPipeline ps := by
  unfold pluginPipeline
  refine List.mem_append_right _ (List.mem_map.mpr ⟨j, ?_, rfl⟩)
  simpa using hj

/-- C2: in the plugin middleware, if plugin `i` is the first whose
`HandleRequest` returns true, then no later plugin's `HandleRequest` runs
and the underlying handler never runs, yet `AfterRequest` still runs for
every active plugin; if every `HandleRequest` returns false, the
underlying handler runs and `AfterRequest` runs for every active
plugin. -/
theorem goup_c2_plugin_pipeline (ps : List Bool) (i : Nat) :
    (ps[i]? = some true → (∀ j < i, ps[j]? = some false) →
      PEvent.inner ∉ pluginPipeline ps ∧
      (∀ j, PEvent.handle j ∈ pluginPipeline ps → j ≤ i) ∧
      (∀ j < ps.length, PEvent.after j ∈ pluginPipeline ps)) ∧
    ((∀ j < ps.length, ps[j]? = some false) →
      PEvent.inner ∈ pluginPipeline ps ∧
      (∀ j < ps.length, PEvent.after j ∈ pluginPipeline ps)) := by
  constructor
  · intro hi hbefore
    obtain ⟨h1, h2⟩ := handlePhase_first_true ps 0 i hi hbefore
    refine ⟨?_, ?_, fun j hj => after_mem_pluginPipeline ps j hj⟩
    · unfold pluginPipeline
      intro hmem
      rcases List.mem_append.mp hmem with hmem | hmem
      · rcases List.mem_append.mp hmem with hmem | hmem
        · rcases List.mem_map.mp hmem with ⟨x, _, hx⟩
          exact absurd hx (by simp)
        · exact h1 hmem
      · rcases List.mem_map.mp hmem with ⟨x, _, hx⟩
        exact absurd hx (by simp)
    · intro j hj
      unfold pluginPipeline at hj
      rcases List.mem_append.mp hj with hj | hj
      · rcases List.mem_append.mp hj with hj | hj
        · rcases List.mem_map.mp hj with ⟨x, _, hx⟩
          exact absurd hx (by simp)
        · simpa using h2 j hj
      · rcases List.mem_map.mp hj with ⟨x, _, hx⟩
        exact absurd hx (by simp)
  · intro hall
    exact ⟨List.mem_append_left _ (List.mem_append_right _
        (handlePhase_all_false ps 0 hall)),
      fun j hj => after_mem_pluginPipeline ps j hj⟩

/-- Witness for `goup_c2_plugin_pipeline`: with three plugins whose
`HandleRequest` results are `[false, true, false]`, the inner handler is
skipped, plugin 2's `HandleRequest` never runs, and all three
`AfterRequest` hooks run; with `[false, false]` the inner handler runs. -/
theorem goup_c2_plugin_pipeline_witness :
    (PEvent.inner ∉ pluginPipeline [false, true, false] ∧
      (PEvent.handle 2 ∈ pluginPipeline [false, true, false] → False) ∧
      PEvent.after 2 ∈ pluginPipeline [false, true, false]) ∧
    PEvent.inner ∈ pluginPipeline [false, false] := by
  have h1 := (goup_c2_plugin_pipeline [false, true, false] 1).1
      (by decide) (by decide)
  have h2 := (goup_c2_plugin_pipeline [false, false] 0).2 (by decide)
  exact ⟨⟨h1.1, fun hmem => by have := h1.2.1 2 hmem; omega,
    h1.2.2 2 (by decide)⟩, h2.1⟩

/-! ## C5 — middleware chain copy (`middleware.MiddlewareManager`)

Only the call sites of `NewMiddlewareManager` / `Use` / `Copy` / `Apply`
(server.go, handler.go) are in the repository sources; the manager's body
is not, so it is modelled from the spec.  Mutability is made explicit: a
store holds every live chain, indexed by a chain id, and `use` mutates
exactly one slot of the store. -/

def getIdx {α : Type} (d : α) : List α → Nat → α
  | [], _ => d
  | x :: _, 0 => x
  | _ :: rest, n + 1 => getIdx d rest n

def setIdx {α : Type} : List α → Nat → α → List α
  | [], _, _ => []
  | _ :: rest, 0, a => a :: rest
  | x :: rest, n + 1, a => x :: setIdx rest n a

theorem getIdx_setIdx_ne {α : Type} (d : α) (l : List α) (i j : Nat) (a : α)
    (h : i ≠ j) : getIdx d (setIdx l i a) j = getIdx d l j := by
  induction l generalizing i j with
  | nil => simp [setIdx]
  | cons x rest ih =>
    cases i with
    | zero =>
      cases j with
      | zero => exact absurd rfl h
      | succ j' => simp [setIdx, getIdx]
    | succ i' =>
      cases j with
      | zero => simp [setIdx, getIdx]
      | succ j' => simp [setIdx, getIdx, ih i' j' (fun hh => h (by rw [hh]))]

theorem getIdx_append_lt {α : Type} (d : α) (l l' : List α) (i : Nat)
    (h : i < l.length) : getIdx d (l ++ l') i = getIdx d l i := by
  induction l generalizing i with
  | nil => simp at h
  | cons x rest ih =>
    cases i with
    | zero => simp [getIdx]
    | succ i' => simpa [getIdx] using ih i' (by simpa using h)

theorem getIdx_append_length {α : Type} (d : α) (l : List α) (a : α) :
    getIdx d (l ++ [a]) l.length = a := by
  induction l with
  | nil => simp [getIdx]
  | cons x rest ih => simpa [getIdx] using ih

/-- Modelled from the spec: the set of live middleware chains.  A chain is
its ordered wrapper sequence; wrappers are identified by an id. -/
structure ChainStore where
  chains : List (List Nat)
  deriving DecidableEq, Repr

/-- Modelled from the spec: `use(wrapper)` — "appends a wrapper to *this*
chain only". -/
def chainUse (s : ChainStore) (cid w : Nat) : ChainStore :=
  { chains := setIdx s.chains cid (getIdx [] s.chains cid ++ [w]) }

/-- Modelled from the spec: `copy()` — "returns an independent chain
pre-populated with the current wrapper sequence"; the new chain gets the
next free id. -/
def chainCopy (s : ChainStore) (cid : Nat) : ChainStore × Nat :=
  ({ chains := s.chains ++ [getIdx [] s.chains cid] }, s.chains.length)

/-- Modelled from the spec: `apply(handler)` — folds the wrapper sequence
around the handler, last-registered wrapper outermost; the composed
handler is represented by its outermost-first wrapper ordering around the
handler id. -/
def chainApply (ws : List Nat) (handler : Nat) : List Nat × Nat :=
  (ws.reverse, handler)

/-- C5: copying a chain and then calling `use` on the copy never changes
the original chain's wrapper sequence or the composed-handler ordering
`apply` produces for it, and calling `use` on the original never changes
the copy. -/
theorem goup_c5_chain_copy_independent (s : ChainStore) (cid w handler : Nat)
    (hid : cid < s.chains.length) :
    (getIdx [] (chainUse (chainCopy s cid).1 (chainCopy s cid).2 w).chains cid =
        getIdx [] s.chains cid ∧
      chainApply
          (getIdx [] (chainUse (chainCopy s cid).1 (chainCopy s cid).2 w).chains cid)
          handler =
        chainApply (getIdx [] s.chains cid) handler) ∧
    getIdx [] (chainUse (chainCopy s cid).1 cid w).chains (chainCopy s cid).2 =
      getIdx [] s.chains cid := by
  have hne : s.chains.length ≠ cid := fun h => absurd hid (by omega)
  have horig : getIdx [] (chainUse (chainCopy s cid).1 (chainCopy s cid).2 w).chains cid =
      getIdx [] s.chains cid := by
    unfold chainUse chainCopy
    rw [getIdx_setIdx_ne _ _ _ _ _ hne, getIdx_append_lt _ _ _ _ hid]
  refine ⟨⟨horig, by rw [horig]⟩, ?_⟩
  unfold chainUse chainCopy
  rw [getIdx_setIdx_ne _ _ _ _ _ (fun h => hne h.symm),
    getIdx_append_length]

/-- Witness for `goup_c5_chain_copy_independent` on a two-chain store. -/
theorem goup_c5_chain_copy_independent_witness :
    getIdx [] (chainUse
        (chainCopy { chains := [[1, 2], [3]] } 0).1
        (chainCopy { chains := [[1, 2], [3]] } 0).2 9).chains 0 =
      getIdx [] ({ chains := [[1, 2], [3]] } : ChainStore).chains 0 :=
  ((goup_c5_chain_copy_independent { chains := [[1, 2], [3]] } 0 9 5
    (by decide)).1).1

/-! ## C8 — per-request timeout (`createHandler`, handler.go; `createHTTPServer`)

`createHandler` computes `reqTimeout` (defaulting 0 to 60) at lines 63–66
but then uses only the concurrency, gzip and logging middlewares; no
timeout wrapper (`middleware.TimeoutMiddleware` exists in middleware.go
but is never applied).  `createHTTPServer` only copies a non-negative
`RequestTimeout` into the connection-level `ReadTimeout`/`WriteTimeout`
(0 meaning *no* timeout for `net/http`). -/

/-- The middleware kinds `createHandler` can `Use` on the site's chain. -/
inductive MwKind where
  | concurrency
  | gzip
  | logging
  | timeout
  deriving DecidableEq, Repr

/-- The per-site `Use` calls of `createHandler` (handler.go lines 68–81),
in order: concurrency when `MaxConcurrentConnections > 0`, gzip always,
logging unless `EnableLogging` is explicitly false. -/
def siteMiddlewares (conf : SiteConfig) : List MwKind :=
  (if conf.maxConcurrentConnections > 0 then [MwKind.concurrency] else []) ++
  [MwKind.gzip] ++
  (match conf.enableLogging with
   | none => [MwKind.logging]
   | some true => [MwKind.logging]
   | some false => [])

/-- The dead computation at handler.go lines 63–66: `reqTimeout :=
conf.RequestTimeout; if reqTimeout == 0 { reqTimeout = 60 }`.  The
variable is never read afterwards. -/
def reqTimeoutDefault (conf : SiteConfig) : Int :=
  if conf.requestTimeout = 0 then 60 else conf.requestTimeout

/-- Go `createHTTPServer`: `ReadTimeout`/`WriteTimeout` are
`conf.RequestTimeout` seconds when it is non-negative and 0 (disabled)
otherwise. -/
def serverTimeouts (conf : SiteConfig) : Int × Int :=
  if conf.requestTimeout ≥ 0 then (conf.requestTimeout, conf.requestTimeout)
  else (0, 0)

/-- C8 (code bug): no site handler ever gets a timeout middleware — the
60-second default is computed but never used — and `request_timeout = 0`
yields server read/write timeouts of 0, i.e. disabled, not the documented
60 seconds.  With `request_timeout = 1` and a slow inner handler the
composed handler therefore cannot produce the 503 that
`timeout_test.go` expects. -/
theorem goup_c8_timeout_never_applied :
    (∀ conf : SiteConfig, MwKind.timeout ∉ siteMiddlewares conf) ∧
    siteMiddlewares { domain := "example.com", port := 80, requestTimeout := 1 } =
      [MwKind.gzip, MwKind.logging] ∧
    reqTimeoutDefault { domain := "example.com", port := 80, requestTimeout := 0 } = 60 ∧
    serverTimeouts { domain := "example.com", port := 80, requestTimeout := 0 } = (0, 0) := by
  refine ⟨?_, by decide, by decide, by decide⟩
  intro conf
  unfold siteMiddlewares
  by_cases h1 : conf.maxConcurrentConnections > 0 <;>
    cases h2 : conf.enableLogging with
    | none => simp [h1]
    | some b => cases b <;> simp [h1]

/-! ## C10 — pre-compressed sidecar negotiation (`ServeStatic`, static_handler.go)

Lines 97–151: if the request's `Accept-Encoding` contains `"br"` and the
`.br` sidecar of the resolved file exists, that sidecar is served with
`Content-Encoding: br`; only otherwise, if `Accept-Encoding` contains
`"gzip"` and the `.gz` sidecar exists, it is served with
`Content-Encoding: gzip`.  For a sidecar response the `Content-Type` is
`mime.TypeByExtension(filepath.Ext(fullPath))` — the *original* file's
extension — falling back to `application/octet-stream`, never sniffed
from the compressed bytes.  `mime.TypeByExtension` is standard library
and passed in as a parameter. -/

/-- Go `filepath.Ext`: the suffix of the last path element starting at
its final dot, empty when there is none. -/
def fileExt (p : String) : String :=
  let base := (p.toList.reverse.takeWhile (fun c => c ≠ '/')).reverse
  let revNoExt := base.reverse.takeWhile (fun c => c ≠ '.')
  if revNoExt.length = base.length then "" else ⟨'.' :: revNoExt.reverse⟩

/-- The sidecar-selection cascade of `ServeStatic` (lines 103–126):
Brotli first, gzip only when no Brotli sidecar was selected. -/
def sidecarNegotiation (ae : String) (brExists gzExists : Bool) : Option String :=
  if containsSubstr ae "br" && brExists then some "br"
  else if containsSubstr ae "gzip" && gzExists then some "gzip"
  else none

/-- Content type for a sidecar response (lines 145–150): by the original
file's extension, `application/octet-stream` when unknown. -/
def staticContentType (mimeOf : String → String) (fullPath : String) : String :=
  let m := mimeOf (fileExt fullPath)
  if m = "" then "application/octet-stream" else m

/-- The headers and file choice `ServeStatic` produces for the resolved
file (the `servedCompressed` branch of lines 97–156). -/
structure StaticServeResult where
  servePath : String
  contentEncoding : Option String
  contentType : Option String
  varyAdded : Bool
  deriving DecidableEq, Repr

def serveStaticNegotiated (mimeOf : String → String) (ae fullPath : String)
    (brExists gzExists : Bool) : StaticServeResult :=
  match sidecarNegotiation ae brExists gzExists with
  | some enc =>
    { servePath := fullPath ++ (if enc = "br" then ".br" else ".gz")
      contentEncoding := some enc
      contentType := some (staticContentType mimeOf fullPath)
      varyAdded := true }
  | none =>
    { servePath := fullPath, contentEncoding := none, contentType := none,
      varyAdded := true }

/-- C10: when `Accept-Encoding` contains both `br` and `gzip` and both
sidecars exist, the `.br` sidecar is served with `Content-Encoding: br`;
the `.gz` sidecar is served only when no Brotli sidecar was selected; and
any sidecar response takes its `Content-Type` from the original file's
extension with the `application/octet-stream` fallback. -/
theorem goup_c10_sidecar_negotiation (mimeOf : String → String)
    (ae fullPath : String) (brExists gzExists : Bool) :
    (containsSubstr ae "br" = true → containsSubstr ae "gzip" = true →
      brExists = true → gzExists = true →
      (serveStaticNegotiated mimeOf ae fullPath brExists gzExists).servePath =
          fullPath ++ ".br" ∧
      (serveStaticNegotiated mimeOf ae fullPath brExists gzExists).contentEncoding =
          some "br") ∧
    (sidecarNegotiation ae brExists gzExists = some "gzip" →
      ¬(containsSubstr ae "br" = true ∧ brExists = true) ∧
      containsSubstr ae "gzip" = true ∧ gzExists = true) ∧
    (∀ enc, sidecarNegotiation ae brExists gzExists = some enc →
      (serveStaticNegotiated mimeOf ae fullPath brExists gzExists).contentType =
        some (staticContentType mimeOf fullPath)) := by
  refine ⟨?_, ?_, ?_⟩
  · intro h1 _ h3 _
    simp [serveStaticNegotiated, sidecarNegotiation, h1, h3]
  · intro h
    by_cases hbr : containsSubstr ae "br" = true ∧ brExists = true
    · simp [sidecarNegotiation, hbr.1, hbr.2] at h
    · refine ⟨hbr, ?_⟩
      simp only [sidecarNegotiation, Bool.and_eq_true] at h
      rw [if_neg hbr] at h
      by_cases hg : containsSubstr ae "gzip" = true ∧ gzExists = true
      · exact hg
      · rw [if_neg hg] at h
        exact absurd h (by simp)
  · intro enc h
    simp only [serveStaticNegotiated, h]

/-- Witness for `goup_c10_sidecar_negotiation` at a JS file with both
sidecars and a client accepting both encodings. -/
theorem goup_c10_sidecar_negotiation_witness :
    (serveStaticNegotiated
        (fun e => if e = ".js" then "text/javascript" else "")
        "gzip, deflate, br" "/srv/app.js" true true).servePath = "/srv/app.js.br" ∧
    (serveStaticNegotiated
        (fun e => if e = ".js" then "text/javascript" else "")
        "gzip, deflate, br" "/srv/app.js" true true).contentEncoding = some "br" :=
  (goup_c10_sidecar_negotiation
      (fun e => if e = ".js" then "text/javascript" else "")
      "gzip, deflate, br" "/srv/app.js" true true).1
    (by decide) (by decide) rfl rfl

/-! ## C7 — shared reverse-proxy pool (`getSharedReverseProxy`, handler.go)

The pool key is `fmt.Sprintf("%s|%s|%d", conf.ProxyPass,
conf.FlushInterval, conf.BufferSizeKB)`; on a hit the cached
`ReverseProxy` is returned, on a miss `url.Parse` runs (standard library,
passed in as `parseOk`; on failure nothing is cached) and a freshly
constructed proxy is cached under the key.  Proxy instances are
identified by the order in which they were constructed. -/

/-- Decimal digits of a natural number, most significant first, with
explicit fuel (`fuel ≥ n` suffices); empty for 0. -/
def natReprCore (fuel n : Nat) : List Char :=
  match fuel with
  | 0 => []
  | fuel + 1 => if n = 0 then [] else natReprCore fuel (n / 10) ++ [Nat.digitChar (n % 10)]

/-- The `fmt` decimal rendering of a natural number. -/
def natRepr (n : Nat) : List Char :=
  if n = 0 then ['0'] else natReprCore n n

/-- Go `fmt.Sprintf("%d", i)` for a Go `int`. -/
def intRepr (i : Int) : List Char :=
  if i < 0 then '-' :: natRepr i.natAbs else natRepr i.natAbs

theorem natReprCore_eq_digits (fuel n : Nat) (h : n ≤ fuel) :
    natReprCore fuel n = ((Nat.digits 10 n).map Nat.digitChar).reverse := by
  induction fuel generalizing n with
  | zero =>
    have hn : n = 0 := Nat.le_zero.mp h
    subst hn
    simp [natReprCore]
  | succ fuel ih =>
    by_cases hn : n = 0
    · subst hn
      simp [natReprCore]
    · have hdiv : n / 10 ≤ fuel := by
        have h1 : n / 10 < n := Nat.div_lt_self (Nat.pos_of_ne_zero hn) (by omega)
        omega
      rw [natReprCore, if_neg hn, ih _ hdiv,
        Nat.digits_def' (by omega : 1 < 10) (Nat.pos_of_ne_zero hn)]
      simp

theorem natRepr_of_ne_zero (n : Nat) (hn : n ≠ 0) :
    natRepr n = ((Nat.digits 10 n).map Nat.digitChar).reverse := by
  unfold natRepr
  rw [if_neg hn]
  exact natReprCore_eq_digits n n le_rfl

theorem digitChar_lt_ten_ne_dash : ∀ d < 10, Nat.digitChar d ≠ '-' := by
  decide

theorem digitChar_inj_ball :
    ∀ d < 10, ∀ d' < 10, Nat.digitChar d = Nat.digitChar d' → d = d' := by
  decide

theorem natRepr_ne_dash_cons (n : Nat) (l : List Char) :
    natRepr n ≠ '-' :: l := by
  intro h
  have hmem : '-' ∈ natRepr n := by rw [h]; exact List.mem_cons_self _ _
  by_cases hn : n = 0
  · subst hn
    simp [natRepr] at hmem
  · rw [natRepr_of_ne_zero n hn, List.mem_reverse] at hmem
    rcases List.mem_map.mp hmem with ⟨d, hdmem, hd⟩
    exact digitChar_lt_ten_ne_dash d
      (Nat.digits_lt_base (by omega) hdmem) hd

theorem map_digitChar_inj (l l' : List Nat) (hl : ∀ x ∈ l, x < 10)
    (hl' : ∀ x ∈ l', x < 10) (h : l.map Nat.digitChar = l'.map Nat.digitChar) :
    l = l' := by
  induction l generalizing l' with
  | nil => cases l' <;> simp_all
  | cons x rest ih =>
    cases l' with
    | nil => simp at h
    | cons y rest' =>
      simp only [List.map_cons, List.cons.injEq] at h
      have hx := digitChar_inj_ball x (hl x (by simp)) y (hl' y (by simp)) h.1
      subst hx
      have := ih rest' (fun z hz => hl z (List.mem_cons_of_mem _ hz))
        (fun z hz => hl' z (List.mem_cons_of_mem _ hz)) h.2
      rw [this]

theorem digits_eq_single_zero_of_map (n : Nat)
    (h' : (Nat.digits 10 n).map Nat.digitChar = ['0']) : n = 0 := by
  have hdig : Nat.digits 10 n = [0] := by
    cases hd : Nat.digits 10 n with
    | nil => rw [hd] at h'; simp at h'
    | cons d rest =>
      rw [hd] at h'
      cases rest with
      | nil =>
        simp only [List.map_cons, List.map_nil, List.cons.injEq] at h'
        have hd10 : d < 10 := Nat.digits_lt_base (by omega) (by rw [hd]; simp)
        have hd0 : d = 0 := digitChar_inj_ball d hd10 0 (by omega) (by simpa using h'.1)
        rw [hd0]
      | cons _ _ => simp at h'
  have := Nat.ofDigits_digits 10 n
  rw [hdig] at this
  simpa [Nat.ofDigits] using this.symm

theorem natRepr_inj (m n : Nat) (h : natRepr m = natRepr n) : m = n := by
  by_cases hm : m = 0 <;> by_cases hn : n = 0
  · omega
  · subst hm
    rw [natRepr_of_ne_zero n hn] at h
    have h' : (Nat.digits 10 n).map Nat.digitChar = ['0'] := by
      have := congrArg List.reverse h
      simpa [natRepr] using this.symm
    exact ((digits_eq_single_zero_of_map n h').symm ▸ rfl : (0 : Nat) = n)
  · subst hn
    rw [natRepr_of_ne_zero m hm] at h
    have h' : (Nat.digits 10 m).map Nat.digitChar = ['0'] := by
      have := congrArg List.reverse h
      simpa [natRepr] using this
    exact digits_eq_single_zero_of_map m h'
  · rw [natRepr_of_ne_zero m hm, natRepr_of_ne_zero n hn] at h
    have hmap := List.reverse_injective h
    have hdig := map_digitChar_inj _ _
      (fun x hx => Nat.digits_lt_base (by omega) hx)
      (fun x hx => Nat.digits_lt_base (by omega) hx) hmap
    have h1 := Nat.ofDigits_digits 10 m
    have h2 := Nat.ofDigits_digits 10 n
    rw [← h1, ← h2, hdig]

theorem intRepr_inj (i j : Int) (h : intRepr i = intRepr j) : i = j := by
  unfold intRepr at h
  by_cases hi : i < 0 <;> by_cases hj : j < 0
  · rw [if_pos hi, if_pos hj] at h
    have := natRepr_inj _ _ (List.cons.inj h).2
    omega
  · rw [if_pos hi, if_neg hj] at h
    exact absurd h.symm (natRepr_ne_dash_cons _ _)
  · rw [if_neg hi, if_pos hj] at h
    exact absurd h (natRepr_ne_dash_cons _ _)
  · rw [if_neg hi, if_neg hj] at h
    have := natRepr_inj _ _ h
    omega

/-- The cache key `fmt.Sprintf("%s|%s|%d", conf.ProxyPass,
conf.FlushInterval, conf.BufferSizeKB)` (handler.go line 136), as its
character sequence. -/
def proxyKey (c : SiteConfig) : List Char :=
  c.proxyPass.toList ++ '|' :: (c.flushInterval.toList ++ '|' :: intRepr c.bufferSizeKB)

theorem stringToList_inj (s t : String) (h : s.toList = t.toList) : s = t := by
  cases s; cases t
  simp only [String.toList] at h
  rw [h]

theorem proxyKey_ne_of_proxyPass_ne (c1 c2 : SiteConfig)
    (hf : c1.flushInterval = c2.flushInterval) (hb : c1.bufferSizeKB = c2.bufferSizeKB)
    (hp : c1.proxyPass ≠ c2.proxyPass) : proxyKey c1 ≠ proxyKey c2 := by
  intro h
  unfold proxyKey at h
  rw [hf, hb] at h
  exact hp (stringToList_inj _ _ (List.append_cancel_right h))

theorem proxyKey_ne_of_flushInterval_ne (c1 c2 : SiteConfig)
    (hp : c1.proxyPass = c2.proxyPass) (hb : c1.bufferSizeKB = c2.bufferSizeKB)
    (hf : c1.flushInterval ≠ c2.flushInterval) : proxyKey c1 ≠ proxyKey c2 := by
  intro h
  unfold proxyKey at h
  rw [hp, hb] at h
  have h1 := List.append_cancel_left h
  have h2 : c1.flushInterval.toList ++ '|' :: intRepr c2.bufferSizeKB =
      c2.flushInterval.toList ++ '|' :: intRepr c2.bufferSizeKB := by
    have := List.cons.inj h1
    exact this.2
  exact hf (stringToList_inj _ _ (List.append_cancel_right h2))

theorem proxyKey_ne_of_bufferSize_ne (c1 c2 : SiteConfig)
    (hp : c1.proxyPass = c2.proxyPass) (hf : c1.flushInterval = c2.flushInterval)
    (hb : c1.bufferSizeKB ≠ c2.bufferSizeKB) : proxyKey c1 ≠ proxyKey c2 := by
  intro h
  unfold proxyKey at h
  rw [hp, hf] at h
  have h1 := (List.cons.inj (List.append_cancel_left h)).2
  have h2 := (List.cons.inj (List.append_cancel_left h1)).2
  exact hb (intRepr_inj _ _ h2)

/-- The `sharedProxyMap` plus the identity of the next proxy instance to
be constructed (instances are numbered in construction order). -/
structure ProxyPool where
  entries : List (List Char × Nat) := []
  next : Nat := 0
  deriving DecidableEq, Repr

/-- Go map lookup `sharedProxyMap[key]`. -/
def poolLookup : List (List Char × Nat) → List Char → Option Nat
  | [], _ => none
  | (k', v) :: rest, k => if k' = k then some v else poolLookup rest k

/-- Go `getSharedReverseProxy` (handler.go lines 132–178): return the cached
proxy on a key hit; otherwise parse the target URL (`url.Parse`, standard
library, abstracted as `parseOk` — on failure nothing is cached and the
error propagates), construct a fresh proxy and cache it under the key. -/
def getSharedReverseProxy (parseOk : String → Bool) (p : ProxyPool)
    (c : SiteConfig) : Option (Nat × ProxyPool) :=
  match poolLookup p.entries (proxyKey c) with
  | some rp => some (rp, p)
  | none =>
    if parseOk c.proxyPass then
      some (p.next, { entries := p.entries ++ [(proxyKey c, p.next)], next := p.next + 1 })
    else none

/-- Pool well-formedness: every cached instance was constructed earlier
than `next`, no key occurs twice, and no instance is cached under two
keys. -/
def PoolInv (p : ProxyPool) : Prop :=
  (∀ e ∈ p.entries, e.2 < p.next) ∧
  (p.entries.map Prod.fst).Nodup ∧
  (p.entries.map Prod.snd).Nodup

theorem poolLookup_mem (l : List (List Char × Nat)) (k : List Char) (v : Nat)
    (h : poolLookup l k = some v) : (k, v) ∈ l := by
  induction l with
  | nil => simp [poolLookup] at h
  | cons p rest ih =>
    obtain ⟨k', v'⟩ := p
    by_cases hk : k' = k
    · subst hk
      simp [poolLookup] at h
      simp [h]
    · simp [poolLookup, hk] at h
      exact List.mem_cons_of_mem _ (ih h)

theorem poolLookup_none_not_mem (l : List (List Char × Nat)) (k : List Char)
    (h : poolLookup l k = none) : ∀ v, (k, v) ∉ l := by
  induction l with
  | nil => simp
  | cons p rest ih =>
    obtain ⟨k', v'⟩ := p
    by_cases hk : k' = k
    · subst hk; simp [poolLookup] at h
    · simp [poolLookup, hk] at h
      intro v hv
      rcases List.mem_cons.mp hv with hv | hv
      · exact hk (congrArg Prod.fst hv).symm
      · exact ih h v hv

theorem poolLookup_append_self (l : List (List Char × Nat)) (k : List Char)
    (v : Nat) (h : poolLookup l k = none) :
    poolLookup (l ++ [(k, v)]) k = some v := by
  induction l with
  | nil => simp [poolLookup]
  | cons p rest ih =>
    obtain ⟨k', v'⟩ := p
    by_cases hk : k' = k
    · subst hk; simp [poolLookup] at h
    · simp [poolLookup, hk] at h ⊢
      exact ih h

theorem mem_keys_of_mem_snd (l : List (List Char × Nat)) (k1 k2 : List Char)
    (v : Nat) (hnd : (l.map Prod.snd).Nodup)
    (h1 : (k1, v) ∈ l) (h2 : (k2, v) ∈ l) : k1 = k2 := by
  induction l with
  | nil => simp at h1
  | cons p rest ih =>
    obtain ⟨a, b⟩ := p
    simp only [List.map_cons, List.nodup_cons] at hnd
    rcases List.mem_cons.mp h1 with h1 | h1 <;>
      rcases List.mem_cons.mp h2 with h2 | h2
    · rw [Prod.mk.injEq] at h1 h2
      rw [h1.1, h2.1]
    · rw [Prod.mk.injEq] at h1
      exact absurd (h1.2 ▸ List.mem_map.mpr ⟨(k2, v), h2, rfl⟩) hnd.1
    · rw [Prod.mk.injEq] at h2
      exact absurd (h2.2 ▸ List.mem_map.mpr ⟨(k1, v), h1, rfl⟩) hnd.1
    · exact ih hnd.2 h1 h2

theorem not_mem_keys_of_lookup_none (l : List (List Char × Nat)) (k : List Char)
    (h : poolLookup l k = none) : k ∉ l.map Prod.fst := by
  intro hmem
  rcases List.mem_map.mp hmem with ⟨e, he, hk⟩
  have : (k, e.2) ∈ l := by
    have : e = (k, e.2) := by
      obtain ⟨a, b⟩ := e
      simp only at hk
      rw [hk]
    rw [← this]
    exact he
  exact poolLookup_none_not_mem l k h e.2 this

theorem getShared_preserves_inv (parseOk : String → Bool) (p p' : ProxyPool)
    (c : SiteConfig) (rp : Nat) (hinv : PoolInv p)
    (h : getSharedReverseProxy parseOk p c = some (rp, p')) : PoolInv p' := by
  unfold getSharedReverseProxy at h
  cases hl : poolLookup p.entries (proxyKey c) with
  | some v =>
    rw [hl] at h
    obtain ⟨_, hp⟩ := Prod.mk.injEq .. ▸ Option.some.inj h
    rw [← hp]
    exact hinv
  | none =>
    rw [hl] at h
    by_cases hok : parseOk c.proxyPass
    · rw [if_pos hok] at h
      obtain ⟨hrp, hp⟩ := Prod.mk.injEq .. ▸ Option.some.inj h
      rw [← hp]
      refine ⟨?_, ?_, ?_⟩
      · intro e he
        rcases List.mem_append.mp he with he | he
        · have := hinv.1 e he
          simp only
          omega
        · simp only [List.mem_singleton] at he
          rw [he]
          simp
      · simp only [List.map_append, List.map_cons, List.map_nil]
        refine List.Nodup.append hinv.2.1 (List.nodup_singleton _) ?_
        intro a ha hb
        simp only [List.mem_singleton] at hb
        rw [hb] at ha
        exact not_mem_keys_of_lookup_none p.entries (proxyKey c) hl ha
      · simp only [List.map_append, List.map_cons, List.map_nil]
        refine List.Nodup.append hinv.2.2 (List.nodup_singleton _) ?_
        intro a ha hb
        simp only [List.mem_singleton] at hb
        rcases List.mem_map.mp ha with ⟨e, he, hsnd⟩
        have := hinv.1 e he
        omega
    · rw [if_neg hok] at h
      exact absurd h (by simp)

theorem getShared_hit_of_key_eq (parseOk : String → Bool) (p p1 : ProxyPool)
    (c1 c2 : SiteConfig) (rp1 : Nat)
    (h1 : getSharedReverseProxy parseOk p c1 = some (rp1, p1))
    (hk : proxyKey c2 = proxyKey c1) :
    getSharedReverseProxy parseOk p1 c2 = some (rp1, p1) := by
  unfold getSharedReverseProxy at h1 ⊢
  cases hl : poolLookup p.entries (proxyKey c1) with
  | some v =>
    rw [hl] at h1
    obtain ⟨hv, hp⟩ := Prod.mk.injEq .. ▸ Option.some.inj h1
    rw [← hp, hk, hl, hv]
  | none =>
    rw [hl] at h1
    by_cases hok : parseOk c1.proxyPass
    · rw [if_pos hok] at h1
      obtain ⟨hrp, hp⟩ := Prod.mk.injEq .. ▸ Option.some.inj h1
      rw [← hp, hk]
      simp only
      rw [poolLookup_append_self p.entries (proxyKey c1) p.next hl, hrp]
    · rw [if_neg hok] at h1
      exact absurd h1 (by simp)

theorem getShared_distinct_of_key_ne (parseOk : String → Bool)
    (p p1 p2 : ProxyPool) (c1 c2 : SiteConfig) (rp1 rp2 : Nat) (hinv : PoolInv p)
    (h1 : getSharedReverseProxy parseOk p c1 = some (rp1, p1))
    (h2 : getSharedReverseProxy parseOk p1 c2 = some (rp2, p2))
    (hk : proxyKey c1 ≠ proxyKey c2) : rp1 ≠ rp2 := by
  unfold getSharedReverseProxy at h1 h2
  cases hl1 : poolLookup p.entries (proxyKey c1) with
  | some v =>
    rw [hl1] at h1
    obtain ⟨hv, hp⟩ := Prod.mk.injEq .. ▸ Option.some.inj h1
    rw [← hp] at h2
    have hmem1 : (proxyKey c1, rp1) ∈ p.entries := by
      rw [← hv]
      exact poolLookup_mem _ _ _ hl1
    cases hl2 : poolLookup p.entries (proxyKey c2) with
    | some w =>
      rw [hl2] at h2
      obtain ⟨hw, _⟩ := Prod.mk.injEq .. ▸ Option.some.inj h2
      have hmem2 : (proxyKey c2, rp2) ∈ p.entries := by
        rw [← hw]
        exact poolLookup_mem _ _ _ hl2
      intro heq
      rw [heq] at hmem1
      exact hk (mem_keys_of_mem_snd p.entries _ _ rp2 hinv.2.2 hmem1 hmem2)
    | none =>
      rw [hl2] at h2
      by_cases hok : parseOk c2.proxyPass
      · rw [if_pos hok] at h2
        obtain ⟨hw, _⟩ := Prod.mk.injEq .. ▸ Option.some.inj h2
        have := hinv.1 _ hmem1
        omega
      · rw [if_neg hok] at h2
        exact absurd h2 (by simp)
  | none =>
    rw [hl1] at h1
    by_cases hok : parseOk c1.proxyPass
    · rw [if_pos hok] at h1
      obtain ⟨hrp, hp⟩ := Prod.mk.injEq .. ▸ Option.some.inj h1
      have hent : p1.entries = p.entries ++ [(proxyKey c1, p.next)] := by rw [← hp]
      have hnext : p1.next = p.next + 1 := by rw [← hp]
      rw [hent] at h2
      cases hl2 : poolLookup (p.entries ++ [(proxyKey c1, p.next)]) (proxyKey c2) with
      | some w =>
        rw [hl2] at h2
        obtain ⟨hw, _⟩ := Prod.mk.injEq .. ▸ Option.some.inj h2
        have hmem2 := poolLookup_mem _ _ _ hl2
        rcases List.mem_append.mp hmem2 with hmem2 | hmem2
        · have hw2 : w < p.next := hinv.1 _ hmem2
          omega
        · simp only [List.mem_singleton, Prod.mk.injEq] at hmem2
          exact absurd hmem2.1.symm hk
      | none =>
        rw [hl2] at h2
        by_cases hok2 : parseOk c2.proxyPass
        · rw [if_pos hok2] at h2
          obtain ⟨hw, _⟩ := Prod.mk.injEq .. ▸ Option.some.inj h2
          omega
        · rw [if_neg hok2] at h2
          exact absurd h2 (by simp)
    · rw [if_neg hok] at h1
      exact absurd h1 (by simp)

/-- C7 (amended): the pool key is the string
`ProxyPass|FlushInterval|BufferSizeKB`.  Configurations with equal keys —
identical triples in particular — share one proxy instance; configurations
with distinct keys, in particular those differing in exactly one of the
three fields, get distinct instances (two configurations differing in
*more* than one field can collide on the same key, since a field may
contain the `|` separator); the pool never holds two live entries for the
same key and stays well-formed. -/
theorem goup_c7_proxy_pool (parseOk : String → Bool) (p p1 p2 : ProxyPool)
    (c1 c2 : SiteConfig) (rp1 rp2 : Nat) (hinv : PoolInv p)
    (h1 : getSharedReverseProxy parseOk p c1 = some (rp1, p1))
    (h2 : getSharedReverseProxy parseOk p1 c2 = some (rp2, p2)) :
    PoolInv p1 ∧ PoolInv p2 ∧
    (proxyKey c2 = proxyKey c1 → rp2 = rp1 ∧ p2 = p1) ∧
    (proxyKey c1 ≠ proxyKey c2 → rp1 ≠ rp2) ∧
    (c1.flushInterval = c2.flushInterval → c1.bufferSizeKB = c2.bufferSizeKB →
      c1.proxyPass ≠ c2.proxyPass → rp1 ≠ rp2) ∧
    (c1.proxyPass = c2.proxyPass → c1.bufferSizeKB = c2.bufferSizeKB →
      c1.flushInterval ≠ c2.flushInterval → rp1 ≠ rp2) ∧
    (c1.proxyPass = c2.proxyPass → c1.flushInterval = c2.flushInterval →
      c1.bufferSizeKB ≠ c2.bufferSizeKB → rp1 ≠ rp2) := by
  have hinv1 : PoolInv p1 := getShared_preserves_inv parseOk p p1 c1 rp1 hinv h1
  refine ⟨hinv1, getShared_preserves_inv parseOk p1 p2 c2 rp2 hinv1 h2, ?_, ?_, ?_, ?_, ?_⟩
  · intro hk
    have := getShared_hit_of_key_eq parseOk p p1 c1 c2 rp1 h1 hk
    rw [this] at h2
    obtain ⟨ha, hb⟩ := Prod.mk.injEq .. ▸ Option.some.inj h2
    exact ⟨ha.symm, hb.symm⟩
  · exact getShared_distinct_of_key_ne parseOk p p1 p2 c1 c2 rp1 rp2 hinv h1 h2
  · intro hf hb hp
    exact getShared_distinct_of_key_ne parseOk p p1 p2 c1 c2 rp1 rp2 hinv h1 h2
      (proxyKey_ne_of_proxyPass_ne c1 c2 hf hb hp)
  · intro hp hb hf
    exact getShared_distinct_of_key_ne parseOk p p1 p2 c1 c2 rp1 rp2 hinv h1 h2
      (proxyKey_ne_of_flushInterval_ne c1 c2 hp hb hf)
  · intro hp hf hb
    exact getShared_distinct_of_key_ne parseOk p p1 p2 c1 c2 rp1 rp2 hinv h1 h2
      (proxyKey_ne_of_bufferSize_ne c1 c2 hp hf hb)

/-- The first of the two colliding configurations used below. -/
def siteProxyA : SiteConfig :=
  { domain := "s1", port := 80, proxyPass := "http://a", flushInterval := "b|http://c", bufferSizeKB := 1 }

/-- The second colliding configuration: a different proxy target (and
flush interval), yet the same `|`-concatenated pool key as `siteProxyA`. -/
def siteProxyB : SiteConfig :=
  { domain := "s2", port := 80, proxyPass := "http://a|b", flushInterval := "http://c", bufferSizeKB := 1 }

/-- Two configurations sharing a proxy target but with distinct buffer
sizes, for the witness below. -/
def siteBufOne : SiteConfig :=
  { domain := "s1", port := 80, proxyPass := "http://u1", bufferSizeKB := 1 }

def siteBufTwo : SiteConfig :=
  { domain := "s2", port := 81, proxyPass := "http://u1", bufferSizeKB := 2 }

/-- Witness for `goup_c7_proxy_pool`: two sites differing only in
`buffer_size_kb` get the distinct instances 0 and 1 from an empty pool. -/
theorem goup_c7_proxy_pool_witness :
    PoolInv { entries := [(proxyKey siteBufOne, 0)], next := 1 } ∧
    (0 : Nat) ≠ 1 := by
  have h := goup_c7_proxy_pool (fun _ => true)
    { entries := [], next := 0 }
    { entries := [(proxyKey siteBufOne, 0)], next := 1 }
    { entries := [(proxyKey siteBufOne, 0), (proxyKey siteBufTwo, 1)], next := 2 }
    siteBufOne siteBufTwo
    0 1 ⟨by simp, by simp, by simp⟩ (by decide) (by decide)
  exact ⟨h.1, h.2.2.2.2.2.2 rfl rfl (by decide)⟩

/-- Counterexample to C7 as stated: the `|`-concatenated key makes
`siteProxyA` = `("http://a", "b|http://c", 1)` and `siteProxyB` =
`("http://a|b", "http://c", 1)` — which differ in their proxy target —
collide on one key, so the second site receives the first site's proxy
instance (id 0) instead of a distinct one. -/
theorem goup_c7_counterexample :
    siteProxyA.proxyPass ≠ siteProxyB.proxyPass ∧
    getSharedReverseProxy (fun _ => true) { entries := [], next := 0 } siteProxyA =
      some (0, { entries := [(proxyKey siteProxyA, 0)], next := 1 }) ∧
    getSharedReverseProxy (fun _ => true)
        { entries := [(proxyKey siteProxyA, 0)], next := 1 } siteProxyB =
      some (0, { entries := [(proxyKey siteProxyA, 0)], next := 1 }) := by
  refine ⟨by decide, by decide, by decide⟩

/-! ## C4 / C9 — smart gzip middleware (`GzipMiddleware` / `smartGzipWriter`)

The middleware wraps the response writer only when the request's
`Accept-Encoding` contains `gzip` and it is not a WebSocket handshake.
The wrapper defers the compress/passthrough decision to the first
`Write`/`WriteHeader` (`checkCompression`, run exactly once): passthrough
when a `Content-Encoding` is already present or the primary content type
is not in the allow-list; otherwise it deletes `Content-Length`, sets
`Content-Encoding: gzip` and `Vary: Accept-Encoding` and streams the body
through a gzip writer taken from a pool and returned on `Close`.  Bytes
are `Nat`s; the gzip codec (`compress/gzip`, standard library) is the
parameter `enc`, `http.DetectContentType` the parameter `detect`. -/

/-- Response headers; Go `http.Header` restricted to single-valued use. -/
abbrev Headers := List (String × String)

/-- Go `Header.Get`: first value, `""` when absent. -/
def hGet : Headers → String → String
  | [], _ => ""
  | (k', v) :: rest, k => if k' = k then v else hGet rest k

/-- Go `Header.Set`: drop previous values of the key, add the new one. -/
def hSet (h : Headers) (k v : String) : Headers :=
  (h.filter fun p => p.1 ≠ k) ++ [(k, v)]

/-- Go `Header.Del`. -/
def hDel (h : Headers) (k : String) : Headers :=
  h.filter fun p => p.1 ≠ k

/-- The `compressibleTypes` map of the middleware. -/
def compressibleTypes (ct : String) : Bool :=
  ct = "text/html" || ct = "text/css" || ct = "text/plain" ||
  ct = "text/javascript" || ct = "application/javascript" ||
  ct = "application/x-javascript" || ct = "application/json" ||
  ct = "application/xml" || ct = "text/xml" || ct = "image/svg+xml"

/-- The observable state of one response through `smartGzipWriter`:
its headers, the writer's `checked`/`shouldCompress`/`status` fields,
the statuses and bytes forwarded to the underlying writer, the bytes fed
to the gzip writer, and how often a pooled gzip writer was taken and
returned. -/
structure GzWState where
  hdrs : Headers := []
  checked : Bool := false
  shouldCompress : Bool := false
  status : Nat := 0
  sentStatuses : List Nat := []
  rawOut : List Nat := []
  gzBuf : List Nat := []
  poolGets : Nat := 0
  poolPuts : Nat := 0
  deriving DecidableEq, Repr

/-- Go `smartGzipWriter.checkCompression`: run once; passthrough when a
`Content-Encoding` is already set or the `;`-stripped content type is not
compressible; otherwise take a pooled gzip writer and compress. -/
def checkCompression (s : GzWState) : GzWState :=
  if s.checked then s
  else
    let s1 := { s with checked := true }
    if hGet s1.hdrs "Content-Encoding" ≠ "" then { s1 with shouldCompress := false }
    else
      if compressibleTypes (cutAtChar (hGet s1.hdrs "Content-Type") ';') then
        { s1 with shouldCompress := true, poolGets := s1.poolGets + 1 }
      else { s1 with shouldCompress := false }

/-- Go `smartGzipWriter.WriteHeader`. -/
def gzWriteHeader (s : GzWState) (status : Nat) : GzWState :=
  if s.checked then { s with sentStatuses := s.sentStatuses ++ [status] }
  else
    let s1 := checkCompression { s with status := status }
    let s2 :=
      if s1.shouldCompress then
        { s1 with hdrs := hSet (hSet (hDel s1.hdrs "Content-Length")
            "Content-Encoding" "gzip") "Vary" "Accept-Encoding" }
      else s1
    { s2 with sentStatuses := s2.sentStatuses ++ [status] }

/-- Go `smartGzipWriter.Write`. -/
def gzWrite (detect : List Nat → String) (s : GzWState) (b : List Nat) : GzWState :=
  let s1 :=
    if !s.checked then
      let s0 :=
        if hGet s.hdrs "Content-Type" = "" then
          { s with hdrs := hSet s.hdrs "Content-Type" (detect b) }
        else s
      gzWriteHeader s0 200
    else s
  if s1.shouldCompress then { s1 with gzBuf := s1.gzBuf ++ b }
  else { s1 with rawOut := s1.rawOut ++ b }

/-- Go `smartGzipWriter.Close` (the middleware's `defer gw.Close()`): flush
the gzip stream to the underlying writer and return the writer to the
pool. -/
def gzClose (enc : List Nat → List Nat) (s : GzWState) : GzWState :=
  if s.shouldCompress then
    { s with rawOut := s.rawOut ++ enc s.gzBuf, poolPuts := s.poolPuts + 1 }
  else s

/-- What the inner handler does to the response writer. -/
inductive HAction where
  | setHeader (k v : String)
  | writeHeader (status : Nat)
  | write (b : List Nat)
  deriving DecidableEq, Repr

/-- One handler action against the wrapped (`smartGzipWriter`) writer. -/
def gzStep (detect : List Nat → String) (s : GzWState) : HAction → GzWState
  | HAction.setHeader k v => { s with hdrs := hSet s.hdrs k v }
  | HAction.writeHeader st => gzWriteHeader s st
  | HAction.write b => gzWrite detect s b

def gzRun (detect : List Nat → String) (s : GzWState) : List HAction → GzWState
  | [] => s
  | a :: as => gzRun detect (gzStep detect s a) as

/-- One handler action against the bare (unwrapped) response writer. -/
def plainStep (s : GzWState) : HAction → GzWState
  | HAction.setHeader k v => { s with hdrs := hSet s.hdrs k v }
  | HAction.writeHeader st => { s with sentStatuses := s.sentStatuses ++ [st] }
  | HAction.write b => { s with rawOut := s.rawOut ++ b }

def plainRun (s : GzWState) : List HAction → GzWState
  | [] => s
  | a :: as => plainRun (plainStep s a) as

/-- Go `GzipMiddleware` (part_008 lines 58–80): pass straight through when
the client does not accept gzip or the request is a WebSocket handshake;
otherwise serve through a `smartGzipWriter` that is closed when the inner
handler returns. -/
def gzipMiddleware (detect : List Nat → String) (enc : List Nat → List Nat)
    (acceptEncoding secWebSocketKey : String) (actions : List HAction) : GzWState :=
  if !(containsSubstr acceptEncoding "gzip") then plainRun {} actions
  else if secWebSocketKey ≠ "" then plainRun {} actions
  else gzClose enc (gzRun detect {} actions)

/-- The canonical shape of a handler response: set headers, send the
status, write the body chunks. -/
def respond (hs : List (String × String)) (status : Nat) (bs : List (List Nat)) :
    List HAction :=
  (hs.map fun p => HAction.setHeader p.1 p.2) ++
    [HAction.writeHeader status] ++ bs.map HAction.write

/-- The headers a handler's `Set` calls produce. -/
def applyHeaders (hs : List (String × String)) : Headers :=
  hs.foldl (fun h p => hSet h p.1 p.2) []

theorem hGet_hSet_self (h : Headers) (k v : String) : hGet (hSet h k v) k = v := by
  induction h with
  | nil => simp [hSet, hGet]
  | cons p rest ih =>
    obtain ⟨a, b⟩ := p
    by_cases ha : a = k
    · simpa [hSet, ha] using ih
    · simpa [hSet, hGet, ha] using ih

theorem hGet_hSet_ne (h : Headers) (k v k' : String) (hne : k ≠ k') :
    hGet (hSet h k v) k' = hGet h k' := by
  induction h with
  | nil => simp [hSet, hGet, hne]
  | cons p rest ih =>
    obtain ⟨a, b⟩ := p
    by_cases ha : a = k
    · have hfil : hSet ((a, b) :: rest) k v = hSet rest k v := by
        simp [hSet, List.filter_cons, ha]
      have hskip : hGet ((a, b) :: rest) k' = hGet rest k' := by
        have hak : ¬a = k' := by rw [ha]; exact hne
        simp [hGet, hak]
      rw [hfil, hskip, ih]
    · have hfil : hSet ((a, b) :: rest) k v = (a, b) :: hSet rest k v := by
        simp [hSet, List.filter_cons, ha]
      rw [hfil]
      by_cases ha' : a = k'
      · simp [hGet, ha']
      · simp [hGet, ha', ih]

theorem hGet_hDel_self (h : Headers) (k : String) : hGet (hDel h k) k = "" := by
  induction h with
  | nil => simp [hDel, hGet]
  | cons p rest ih =>
    obtain ⟨a, b⟩ := p
    by_cases ha : a = k
    · simpa [hDel, ha] using ih
    · simpa [hDel, hGet, ha] using ih

theorem hGet_hDel_ne (h : Headers) (k k' : String) (hne : k ≠ k') :
    hGet (hDel h k) k' = hGet h k' := by
  induction h with
  | nil => simp [hDel, hGet]
  | cons p rest ih =>
    obtain ⟨a, b⟩ := p
    by_cases ha : a = k
    · have hfil : hDel ((a, b) :: rest) k = hDel rest k := by
        simp [hDel, List.filter_cons, ha]
      have hskip : hGet ((a, b) :: rest) k' = hGet rest k' := by
        have hak : ¬a = k' := by rw [ha]; exact hne
        simp [hGet, hak]
      rw [hfil, hskip, ih]
    · have hfil : hDel ((a, b) :: rest) k = (a, b) :: hDel rest k := by
        simp [hDel, List.filter_cons, ha]
      rw [hfil]
      by_cases ha' : a = k'
      · simp [hGet, ha']
      · simp [hGet, ha', ih]

theorem gzRun_append (detect : List Nat → String) (s : GzWState)
    (as bs : List HAction) :
    gzRun detect s (as ++ bs) = gzRun detect (gzRun detect s as) bs := by
  induction as generalizing s with
  | nil => simp [gzRun]
  | cons a as ih => simp [gzRun, ih]

theorem gzRun_setHeaders (detect : List Nat → String) (hs : List (String × String))
    (s : GzWState) :
    gzRun detect s (hs.map fun p => HAction.setHeader p.1 p.2) =
      { s with hdrs := hs.foldl (fun h p => hSet h p.1 p.2) s.hdrs } := by
  induction hs generalizing s with
  | nil => simp [gzRun]
  | cons p rest ih =>
    obtain ⟨k, v⟩ := p
    simp only [List.map_cons, gzRun, gzStep, List.foldl_cons]
    exact ih { s with hdrs := hSet s.hdrs k v }

theorem gzRun_writes_compress (detect : List Nat → String) (bs : List (List Nat))
    (s : GzWState) (hc : s.checked = true) (hsc : s.shouldCompress = true) :
    gzRun detect s (bs.map HAction.write) = { s with gzBuf := s.gzBuf ++ bs.flatten } := by
  induction bs generalizing s with
  | nil => simp [gzRun]
  | cons b rest ih =>
    have hstep : gzStep detect s (HAction.write b) = { s with gzBuf := s.gzBuf ++ b } := by
      simp [gzStep, gzWrite, hc, hsc]
    simp only [List.map_cons, gzRun, hstep]
    rw [ih { s with gzBuf := s.gzBuf ++ b } hc hsc]
    simp [List.append_assoc]

theorem gzRun_writes_raw (detect : List Nat → String) (bs : List (List Nat))
    (s : GzWState) (hc : s.checked = true) (hsc : s.shouldCompress = false) :
    gzRun detect s (bs.map HAction.write) = { s with rawOut := s.rawOut ++ bs.flatten } := by
  induction bs generalizing s with
  | nil => simp [gzRun]
  | cons b rest ih =>
    have hstep : gzStep detect s (HAction.write b) = { s with rawOut := s.rawOut ++ b } := by
      simp [gzStep, gzWrite, hc, hsc]
    simp only [List.map_cons, gzRun, hstep]
    rw [ih { s with rawOut := s.rawOut ++ b } hc hsc]
    simp [List.append_assoc]

theorem gzWriteHeader_no_compress (s : GzWState) (st : Nat) (hc : s.checked = false)
    (hdec : hGet s.hdrs "Content-Encoding" ≠ "" ∨
      compressibleTypes (cutAtChar (hGet s.hdrs "Content-Type") ';') = false) :
    gzWriteHeader s st =
      { s with
          checked := true,
          shouldCompress := false,
          status := st,
          sentStatuses := s.sentStatuses ++ [st] } := by
  obtain ⟨h0, c0, sc0, st0, ss0, ro0, gb0, pg0, pp0⟩ := s
  simp only at hc hdec ⊢
  subst hc
  by_cases hce : hGet h0 "Content-Encoding" = ""
  · rcases hdec with hdec | hdec
    · exact absurd hce hdec
    · simp [gzWriteHeader, checkCompression, hce, hdec]
  · simp [gzWriteHeader, checkCompression, hce]

theorem gzWriteHeader_compress (s : GzWState) (st : Nat) (hc : s.checked = false)
    (hce : hGet s.hdrs "Content-Encoding" = "")
    (hct : compressibleTypes (cutAtChar (hGet s.hdrs "Content-Type") ';') = true) :
    gzWriteHeader s st =
      { s with
          checked := true,
          shouldCompress := true,
          status := st,
          poolGets := s.poolGets + 1,
          hdrs := hSet (hSet (hDel s.hdrs "Content-Length") "Content-Encoding" "gzip") "Vary" "Accept-Encoding",
          sentStatuses := s.sentStatuses ++ [st] } := by
  obtain ⟨h0, c0, sc0, st0, ss0, ro0, gb0, pg0, pp0⟩ := s
  simp only at hc hce hct ⊢
  subst hc
  simp [gzWriteHeader, checkCompression, hce, hct]

theorem gzClose_no_compress (enc : List Nat → List Nat) (s : GzWState)
    (hsc : s.shouldCompress = false) : gzClose enc s = s := by
  simp [gzClose, hsc]

theorem gzClose_compress (enc : List Nat → List Nat) (s : GzWState)
    (hsc : s.shouldCompress = true) :
    gzClose enc s =
      { s with
          rawOut := s.rawOut ++ enc s.gzBuf,
          poolPuts := s.poolPuts + 1 } := by
  simp [gzClose, hsc]

theorem gzRun_respond_no_compress (detect : List Nat → String)
    (hs : List (String × String)) (st : Nat) (bs : List (List Nat))
    (hdec : hGet (applyHeaders hs) "Content-Encoding" ≠ "" ∨
      compressibleTypes (cutAtChar (hGet (applyHeaders hs) "Content-Type") ';') = false) :
    gzRun detect {} (respond hs st bs) =
      { hdrs := applyHeaders hs, checked := true, shouldCompress := false,
        status := st, sentStatuses := [st], rawOut := bs.flatten, gzBuf := [],
        poolGets := 0, poolPuts := 0 } := by
  unfold respond
  rw [gzRun_append, gzRun_append, gzRun_setHeaders]
  have hhd : ({} : GzWState).hdrs = [] := rfl
  rw [show gzRun detect { ({} : GzWState) with
      hdrs := hs.foldl (fun h p => hSet h p.1 p.2) ({} : GzWState).hdrs }
      [HAction.writeHeader st] =
    gzWriteHeader { ({} : GzWState) with
      hdrs := hs.foldl (fun h p => hSet h p.1 p.2) ({} : GzWState).hdrs } st from rfl]
  rw [gzWriteHeader_no_compress _ st rfl (by simpa [applyHeaders] using hdec)]
  rw [gzRun_writes_raw _ _ _ rfl rfl]
  simp [applyHeaders]

theorem gzRun_respond_compress (detect : List Nat → String)
    (hs : List (String × String)) (st : Nat) (bs : List (List Nat))
    (hce : hGet (applyHeaders hs) "Content-Encoding" = "")
    (hct : compressibleTypes (cutAtChar (hGet (applyHeaders hs) "Content-Type") ';') = true) :
    gzRun detect {} (respond hs st bs) =
      { hdrs := hSet (hSet (hDel (applyHeaders hs) "Content-Length")
          "Content-Encoding" "gzip") "Vary" "Accept-Encoding",
        checked := true, shouldCompress := true, status := st, sentStatuses := [st],
        rawOut := [], gzBuf := bs.flatten, poolGets := 1, poolPuts := 0 } := by
  unfold respond
  rw [gzRun_append, gzRun_append, gzRun_setHeaders]
  rw [show gzRun detect { ({} : GzWState) with
      hdrs := hs.foldl (fun h p => hSet h p.1 p.2) ({} : GzWState).hdrs }
      [HAction.writeHeader st] =
    gzWriteHeader { ({} : GzWState) with
      hdrs := hs.foldl (fun h p => hSet h p.1 p.2) ({} : GzWState).hdrs } st from rfl]
  rw [gzWriteHeader_compress _ st rfl (by simpa [applyHeaders] using hce)
    (by simpa [applyHeaders] using hct)]
  rw [gzRun_writes_compress _ _ _ rfl rfl]
  simp [applyHeaders]

/-- The response state the middleware must produce when it passes a
response through untouched: handler headers, status and body forwarded
verbatim, no gzip writer taken from or returned to the pool. -/
def gzPassthroughState (hs : List (String × String)) (st : Nat)
    (bs : List (List Nat)) : GzWState :=
  { hdrs := applyHeaders hs, checked := true, shouldCompress := false,
    status := st, sentStatuses := [st], rawOut := bs.flatten, gzBuf := [],
    poolGets := 0, poolPuts := 0 }

/-- The response state the middleware must produce when it compresses:
`Content-Length` deleted, `Content-Encoding: gzip` and
`Vary: Accept-Encoding` set, the whole body fed through the gzip codec,
and the pooled writer taken and returned exactly once. -/
def gzCompressedState (enc : List Nat → List Nat) (hs : List (String × String))
    (st : Nat) (bs : List (List Nat)) : GzWState :=
  { hdrs := hSet (hSet (hDel (applyHeaders hs) "Content-Length")
      "Content-Encoding" "gzip") "Vary" "Accept-Encoding",
    checked := true, shouldCompress := true, status := st, sentStatuses := [st],
    rawOut := enc bs.flatten, gzBuf := bs.flatten, poolGets := 1, poolPuts := 1 }

/-- C4: the gzip middleware never wraps a request whose `Accept-Encoding`
lacks `gzip` or that carries the WebSocket handshake header; for a
wrapped response it decides exactly once, at the first
write/`WriteHeader`: a response that already has a `Content-Encoding`, or
whose parameter-stripped content type is outside the allow-list, is
passed through with headers and body untouched and no pooled writer
taken; otherwise `Content-Length` is removed, `Content-Encoding: gzip`
and `Vary: Accept-Encoding` are set, the body is streamed through the
pooled gzip writer, and the writer is returned to the pool exactly once
on completion. -/
theorem goup_c4_gzip_policy (detect : List Nat → String)
    (enc : List Nat → List Nat) (ae swk : String) (actions : List HAction)
    (hs : List (String × String)) (st : Nat) (bs : List (List Nat)) :
    (containsSubstr ae "gzip" = false →
      gzipMiddleware detect enc ae swk actions = plainRun {} actions) ∧
    (swk ≠ "" → gzipMiddleware detect enc ae swk actions = plainRun {} actions) ∧
    (containsSubstr ae "gzip" = true → swk = "" →
      ((hGet (applyHeaders hs) "Content-Encoding" ≠ "" ∨
          compressibleTypes (cutAtChar (hGet (applyHeaders hs) "Content-Type") ';') = false) →
        gzipMiddleware detect enc ae swk (respond hs st bs) = gzPassthroughState hs st bs) ∧
      (hGet (applyHeaders hs) "Content-Encoding" = "" →
        compressibleTypes (cutAtChar (hGet (applyHeaders hs) "Content-Type") ';') = true →
        gzipMiddleware detect enc ae swk (respond hs st bs) = gzCompressedState enc hs st bs)) ∧
    hGet (gzCompressedState enc hs st bs).hdrs "Content-Encoding" = "gzip" ∧
    hGet (gzCompressedState enc hs st bs).hdrs "Vary" = "Accept-Encoding" ∧
    hGet (gzCompressedState enc hs st bs).hdrs "Content-Length" = "" ∧
    (gzCompressedState enc hs st bs).poolGets = (gzCompressedState enc hs st bs).poolPuts ∧
    (gzPassthroughState hs st bs).hdrs = applyHeaders hs ∧
    (gzPassthroughState hs st bs).rawOut = bs.flatten ∧
    (gzPassthroughState hs st bs).poolGets = 0 := by
  refine ⟨?_, ?_, ?_, ?_, ?_, ?_, rfl, rfl, rfl, rfl⟩
  · intro h
    simp [gzipMiddleware, h]
  · intro h
    by_cases hae : containsSubstr ae "gzip"
    · simp [gzipMiddleware, hae, h]
    · simp [gzipMiddleware, hae]
  · intro hae hswk
    constructor
    · intro hdec
      rw [show gzipMiddleware detect enc ae swk (respond hs st bs) =
          gzClose enc (gzRun detect {} (respond hs st bs)) by
        simp [gzipMiddleware, hae, hswk]]
      rw [gzRun_respond_no_compress detect hs st bs hdec]
      rw [gzClose_no_compress enc _ rfl]
      rfl
    · intro hce hct
      rw [show gzipMiddleware detect enc ae swk (respond hs st bs) =
          gzClose enc (gzRun detect {} (respond hs st bs)) by
        simp [gzipMiddleware, hae, hswk]]
      rw [gzRun_respond_compress detect hs st bs hce hct]
      rw [gzClose_compress enc _ rfl]
      simp [gzCompressedState]
  · show hGet (hSet (hSet (hDel (applyHeaders hs) "Content-Length")
        "Content-Encoding" "gzip") "Vary" "Accept-Encoding") "Content-Encoding" = "gzip"
    rw [hGet_hSet_ne _ _ _ _ (by decide), hGet_hSet_self]
  · exact hGet_hSet_self _ _ _
  · show hGet (hSet (hSet (hDel (applyHeaders hs) "Content-Length")
        "Content-Encoding" "gzip") "Vary" "Accept-Encoding") "Content-Length" = ""
    rw [hGet_hSet_ne _ _ _ _ (by decide), hGet_hSet_ne _ _ _ _ (by decide),
      hGet_hDel_self]

/-- Witness for `goup_c4_gzip_policy`: a JSON response to a gzip-capable
client is compressed with balanced pool use; a client without gzip
support gets the bare writer. -/
theorem goup_c4_gzip_policy_witness :
    gzipMiddleware (fun _ => "") (fun x => 0 :: x) "gzip, br" ""
        (respond [("Content-Type", "application/json")] 200 [[1, 2]]) =
      gzCompressedState (fun x => 0 :: x) [("Content-Type", "application/json")] 200 [[1, 2]] ∧
    gzipMiddleware (fun _ => "") (fun x => 0 :: x) "identity" ""
        (respond [("Content-Type", "application/json")] 200 [[1, 2]]) =
      plainRun {} (respond [("Content-Type", "application/json")] 200 [[1, 2]]) := by
  have h := goup_c4_gzip_policy (fun _ => "") (fun x => 0 :: x) "gzip, br" ""
    (respond [("Content-Type", "application/json")] 200 [[1, 2]])
    [("Content-Type", "application/json")] 200 [[1, 2]]
  have h2 := goup_c4_gzip_policy (fun _ => "") (fun x => 0 :: x) "identity" ""
    (respond [("Content-Type", "application/json")] 200 [[1, 2]])
    [("Content-Type", "application/json")] 200 [[1, 2]]
  exact ⟨(h.2.2.1 (by decide) rfl).2 (by decide) (by decide), h2.1 (by decide)⟩

/-- C9: through the gzip middleware, a `text/plain` body `b` served to a
gzip-accepting client comes out as the gzip stream of exactly `b` (so any
decoder inverting the codec recovers `b`); an `image/png` body is emitted
unmodified; and a response that already set `Content-Encoding: gzip` has
its bytes passed through unmodified. -/
theorem goup_c9_gzip_roundtrip (detect : List Nat → String)
    (enc dec : List Nat → List Nat) (b : List Nat)
    (hcodec : ∀ x, dec (enc x) = x) :
    dec ((gzipMiddleware detect enc "gzip" ""
        (respond [("Content-Type", "text/plain")] 200 [b])).rawOut) = b ∧
    (gzipMiddleware detect enc "gzip" ""
        (respond [("Content-Type", "image/png")] 200 [b])).rawOut = b ∧
    (gzipMiddleware detect enc "gzip" ""
        (respond [("Content-Type", "text/plain"), ("Content-Encoding", "gzip")]
          200 [b])).rawOut = b := by
  have hwrap : ∀ hs bs, gzipMiddleware detect enc "gzip" "" (respond hs 200 bs) =
      gzClose enc (gzRun detect {} (respond hs 200 bs)) := by
    intro hs bs
    have hgz : containsSubstr "gzip" "gzip" = true := by decide
    simp [gzipMiddleware, hgz]
  refine ⟨?_, ?_, ?_⟩
  · rw [hwrap, gzRun_respond_compress detect _ 200 [b] (by decide) (by decide),
      gzClose_compress enc _ rfl]
    simp [hcodec]
  · rw [hwrap, gzRun_respond_no_compress detect _ 200 [b] (Or.inr (by decide)),
      gzClose_no_compress enc _ rfl]
    simp
  · rw [hwrap, gzRun_respond_no_compress detect _ 200 [b] (Or.inl (by decide)),
      gzClose_no_compress enc _ rfl]
    simp

/-- Witness for `goup_c9_gzip_roundtrip` with the identity codec and the
body `[7, 8, 9]`. -/
theorem goup_c9_gzip_roundtrip_witness :
    (fun x : List Nat => x) ((gzipMiddleware (fun _ => "") (fun x => x) "gzip" ""
        (respond [("Content-Type", "text/plain")] 200 [[7, 8, 9]])).rawOut) = [7, 8, 9] ∧
    (gzipMiddleware (fun _ => "") (fun x => x) "gzip" ""
        (respond [("Content-Type", "image/png")] 200 [[7, 8, 9]])).rawOut = [7, 8, 9] :=
  ⟨(goup_c9_gzip_roundtrip (fun _ => "") (fun x => x) (fun x => x) [7, 8, 9]
      (fun _ => rfl)).1,
   (goup_c9_gzip_roundtrip (fun _ => "") (fun x => x) (fun x => x) [7, 8, 9]
      (fun _ => rfl)).2.1⟩

end GoUp
